import Mathlib

/-!
Verification of the BMS protocol engine of `pq_bms_bluetooth`.

A shallow embedding of the pure core of `battery.py`:
* byte buffers are `List Nat` whose elements are `< 256` (Python `bytearray`);
* Python floats are modelled as exact rationals, `round(x, n)` as
  round-half-to-even on rationals;
* a parser that can raise a Python exception (`IndexError`, `ValueError`)
  is modelled as an `Option`-valued function, `none` standing for the raise;
* the insertion-ordered Python `dict` used for the cell voltages is an
  association list: assignment overwrites in place when the key exists and
  appends otherwise.

Definitions follow `battery.py` (class `BatteryInfo`); theorems relate them
to the specification.
-/

set_option maxRecDepth 16000

namespace PqBms

/-- Python slice `data[a:b]` (for `0 ≤ a ≤ b`): tolerant of short lists. -/
def pySlice (data : List Nat) (a b : Nat) : List Nat :=
  (data.drop a).take (b - a)

/-- Python slice `data[-1:]`: the last byte as a singleton, `[]` when empty. -/
def lastSlice (data : List Nat) : List Nat :=
  data.drop (data.length - 1)

/-- `int.from_bytes(bs, byteorder="big")`. Total; the empty string yields 0. -/
def fromBytesBE (bs : List Nat) : Nat :=
  bs.foldl (fun acc b => 256 * acc + b) 0

/-- `int.from_bytes(bs, byteorder="little")`. -/
def fromBytesLE (bs : List Nat) : Nat :=
  bs.foldr (fun b acc => 256 * acc + b) 0

/-- `int.from_bytes(bs, byteorder="big", signed=True)`: two's-complement. -/
def fromBytesBESigned (bs : List Nat) : Int :=
  let v := fromBytesBE bs
  if 2 * v < 2 ^ (8 * bs.length) then (v : Int)
  else (v : Int) - 2 ^ (8 * bs.length)

/-- `BatteryInfo.crc_sum`: `sum(raw_data) & 0xFF`, the additive 8-bit checksum. -/
def crc_sum (raw_data : List Nat) : Nat :=
  raw_data.sum % 256

/-- The checksum comparison performed by the `_check_crc` decorator:
`int.from_bytes(raw_data[-1:], "little") == crc_sum(raw_data[:-1])`. -/
def checksumOk (raw_data : List Nat) : Bool :=
  fromBytesLE (lastSlice raw_data) == crc_sum raw_data.dropLast

/-- `bytes.hex()`: the hex string of a byte string, each character kept as its
numeric nibble value (`0..15`); for each byte the high nibble precedes the low. -/
def hexDigits (bs : List Nat) : List Nat :=
  bs.foldr (fun b acc => b / 16 :: b % 16 :: acc) []

/-- Python `int(c)` applied to one character `c` of a hex string (the character
represented by its nibble value): the digits `0..9` parse to themselves, the
letters `a..f` raise `ValueError` (base 10 is used, not 16). -/
def pyIntDigit (d : Nat) : Option Nat :=
  if d < 10 then some d else none

/-- Python `round(x)` to an integer: round half to even (banker's rounding),
on exact rationals. -/
def roundHalfEven (x : ℚ) : ℤ :=
  if Int.fract x < 1 / 2 then ⌊x⌋
  else if 1 / 2 < Int.fract x then ⌊x⌋ + 1
  else if ⌊x⌋ % 2 = 0 then ⌊x⌋ else ⌊x⌋ + 1

/-- Python `round(x, ndigits)` on exact rationals. -/
def pyRound (x : ℚ) (ndigits : Nat) : ℚ :=
  (roundHalfEven (x * 10 ^ ndigits) : ℚ) / 10 ^ ndigits

/-- The three BMS command kinds (`pq_commands` keys). -/
inductive CommandKind
  | GET_VERSION
  | GET_BATTERY_INFO
  | SERIAL_NUMBER
  deriving DecidableEq

/-- `BatteryInfo.pq_commands`: the fixed 8-byte command frames. The source
stores them as space-separated hex strings; `Request._create_command` converts
each to these bytes with `int(el, 16)`. -/
def pq_commands : CommandKind → List Nat
  | .GET_VERSION => [0x00, 0x00, 0x04, 0x01, 0x16, 0x55, 0xAA, 0x1A]
  | .GET_BATTERY_INFO => [0x00, 0x00, 0x04, 0x01, 0x13, 0x55, 0xAA, 0x17]
  | .SERIAL_NUMBER => [0x00, 0x00, 0x04, 0x01, 0x10, 0x55, 0xAA, 0x14]

/-- Recover the command kind from the command-id byte (offset 4 of a frame). -/
def kindOfCommandId (b : Nat) : Option CommandKind :=
  if b = 0x16 then some CommandKind.GET_VERSION
  else if b = 0x13 then some CommandKind.GET_BATTERY_INFO
  else if b = 0x10 then some CommandKind.SERIAL_NUMBER
  else none

def ERROR_GENERIC : Nat := 1
def ERROR_TIMEOUT : Nat := 2
def ERROR_BLEAK : Nat := 4
def ERROR_CHECKSUM : Nat := 6

/-- Python `dict` assignment `m[k] = v` for an insertion-ordered dictionary:
overwrite in place when the key is present (the dictionaries reachable here
have unique keys, so replacing the first binding is the in-place update),
append otherwise. -/
def dictInsert (m : List (Nat × ℚ)) (k : Nat) (v : ℚ) : List (Nat × ℚ) :=
  match m with
  | [] => [(k, v)]
  | p :: rest => if p.1 = k then (k, v) :: rest else p :: dictInsert rest k v

/-- Python `dict` lookup `m[k]` (as an `Option`). -/
def dictFind (m : List (Nat × ℚ)) (k : Nat) : Option ℚ :=
  (m.find? fun p => p.1 == k).map Prod.snd

/-- The `for key, dt in enumerate(batPack)` loop of `parse_battery_info`
(odd keys are skipped, so the loop walks the slice two bytes at a time):
`cellVoltage = int.from_bytes([batPack[key + 1], dt], "big")`, zero readings
are skipped, nonzero ones stored at cell index `key / 2 + 1` as volts.
The one-element case models the `IndexError` raised by `batPack[key + 1]`
when the slice has odd length. -/
def cellLoop : List Nat → Nat → List (Nat × ℚ) → Option (List (Nat × ℚ))
  | [], _, m => some m
  | [_], _, _ => none
  | dt :: hi :: rest, idx, m =>
      let cellVoltage := 256 * hi + dt
      let m' := if cellVoltage = 0 then m
        else dictInsert m (idx + 1) ((cellVoltage : ℚ) / 1000)
      cellLoop rest (idx + 1) m'

/-- The `self.failureState[0] > 0 or self.failureState[1] > 0` test choosing
`cell_status`, with Python's short-circuit `or` and its `IndexError` on a
too-short list. -/
def cellStatusOf (failureState : List Nat) : Option String := do
  let f0 ← failureState.get? 0
  if f0 > 0 then
    pure "Fault alert! There may be a problem with cell."
  else do
    let f1 ← failureState.get? 1
    if f1 > 0 then
      pure "Fault alert! There may be a problem with cell."
    else
      pure "Battery is in optimal working condition."

/-- The mutable state of a `BatteryInfo` instance (the fields assigned in
`__init__` plus the `error` attribute that the `_check_crc` wrapper creates
dynamically on a checksum mismatch). `heat` and `protectState` hold the hex
strings as nibble-value lists. -/
structure BatteryInfo where
  packVoltage : Option Nat := none
  voltage : Option Nat := none
  batteryPack : List (Nat × ℚ) := []
  current : Option ℚ := none
  watt : Option ℚ := none
  remainAh : Option ℚ := none
  factoryAh : Option ℚ := none
  cellTemperature : Option Int := none
  mosfetTemperature : Option Int := none
  heat : Option (List Nat) := none
  protectState : Option (List Nat) := none
  failureState : Option (List Nat) := none
  equilibriumState : Option Nat := none
  batteryState : Option Nat := none
  SOC : Option Nat := none
  SOH : Option Nat := none
  dischargeSwitchState : Option Nat := none
  dischargesCount : Option Nat := none
  dischargesAHCount : Option Nat := none
  battery_status : Option String := none
  balance_status : Option String := none
  cell_status : Option String := none
  heat_status : Option String := none
  error_code : Nat := 0
  error : Option Nat := none
  error_message : Option String := none
  deriving DecidableEq

/-- The state produced by `BatteryInfo.__init__`. -/
def initBatteryInfo : BatteryInfo := {}

/-- `BatteryInfo.get_battery_status`, as a pure function of the fields it
reads: `self.current` (amps, already rounded), `self.SOC`, `self.batteryState`. -/
def get_battery_status (current : ℚ) (SOC : Nat) (batteryState : Nat) : String :=
  let status :=
    if current = 0 then "Standby"
    else if current > 0 then "Charging"
    else if current < 0 then "Discharging"
    else ""
  if SOC ≥ 100 ∨ batteryState = 4 then "Full Charge" else status

/-- The body of `BatteryInfo.parse_battery_info` (the function wrapped by
`_check_crc`), assignment by assignment. `none` models a raised exception:
`IndexError` from `batPack[key + 1]`, `self.heat[6]`, `self.heat[7]`,
`self.failureState[0]`, `self.failureState[1]`, or `ValueError` from `int()`
on a non-decimal hex character. -/
def parse_battery_info_body (self : BatteryInfo) (data : List Nat) :
    Option BatteryInfo := do
  let packVoltage := fromBytesBE (pySlice data 8 12).reverse
  let voltage := fromBytesBE (pySlice data 12 16).reverse
  let batteryPack ← cellLoop (pySlice data 16 48) 0 self.batteryPack
  let current := fromBytesBESigned (pySlice data 48 52).reverse
  let watt := pyRound (((voltage : ℤ) * current : ℚ) / 10000) 1 / 100
  let remainAh := fromBytesBE (pySlice data 62 64).reverse
  let fccAh := fromBytesBE (pySlice data 64 66).reverse
  let cellTemperature := fromBytesBESigned (pySlice data 52 54).reverse
  let mosfetTemperature := fromBytesBESigned (pySlice data 54 56).reverse
  let heat := hexDigits (pySlice data 68 72).reverse
  let h6 ← heat.get? 6
  let d6 ← pyIntDigit h6
  let dischargeSwitchState := if d6 ≥ 8 then 0 else 1
  let protectState := hexDigits (pySlice data 76 80).reverse
  let failureState := (pySlice data 80 84).reverse
  let equilibriumState := fromBytesBE (pySlice data 84 88).reverse
  let batteryState := fromBytesBE (pySlice data 88 90).reverse
  let SOC := fromBytesBE (pySlice data 90 92).reverse
  let SOH := fromBytesBE (pySlice data 92 96).reverse
  let dischargesCount := fromBytesBE (pySlice data 96 100).reverse
  let dischargesAHCount := fromBytesBE (pySlice data 100 104).reverse
  let currentA := pyRound ((current : ℚ) / 1000) 2
  let battery_status := get_battery_status currentA SOC batteryState
  let balance_status :=
    if equilibriumState > 0 then
      "Battery cells are being balanced for better performance."
    else "All cells are well-balanced."
  let cell_status ← cellStatusOf failureState
  let h7 ← heat.get? 7
  let d7 ← pyIntDigit h7
  let heat_status :=
    if d7 = 2 then "Self-heating is on" else "Self-heating is off"
  pure { self with
    packVoltage := some packVoltage
    voltage := some voltage
    batteryPack := batteryPack
    current := some currentA
    watt := some (pyRound watt 2)
    remainAh := some (pyRound ((remainAh : ℚ) / 100) 2)
    factoryAh := some (pyRound ((fccAh : ℚ) / 100) 2)
    cellTemperature := some cellTemperature
    mosfetTemperature := some mosfetTemperature
    heat := some heat
    protectState := some protectState
    failureState := some failureState
    equilibriumState := some equilibriumState
    batteryState := some batteryState
    SOC := some SOC
    SOH := some SOH
    dischargeSwitchState := some dischargeSwitchState
    dischargesCount := some dischargesCount
    dischargesAHCount := some dischargesAHCount
    battery_status := some battery_status
    balance_status := some balance_status
    cell_status := some cell_status
    heat_status := some heat_status }

/-- The side effect of the `_check_crc` decorator before it calls the wrapped
parser: on `crc_packet != data_crc` it assigns `self.error` — a dynamically
created attribute, not `self.error_code` — and `self.error_message`. -/
def crcTag (self : BatteryInfo) (data : List Nat) : BatteryInfo :=
  let crc_packet := fromBytesLE (lastSlice data)
  let data_crc := crc_sum data.dropLast
  if crc_packet ≠ data_crc then
    { self with
      error := some ERROR_CHECKSUM
      error_message :=
        some s!"Error: checksum missmatch of parse_battery_info: data:{data_crc}, crc-packet:{crc_packet}" }
  else self

/-- `BatteryInfo.parse_battery_info` as callers see it: the `_check_crc`
wrapper runs first (always calling the parser, even on mismatch), then the
body. -/
def parse_battery_info (self : BatteryInfo) (data : List Nat) :
    Option BatteryInfo :=
  parse_battery_info_body (crcTag self data) data

/-- The raw 16-bit reading of cell pair `k` (0-based) of a battery-info
buffer: big-endian of `[data[16 + 2k + 1], data[16 + 2k]]`. -/
def cellRaw (data : List Nat) (k : Nat) : Nat :=
  256 * data.getD (16 + 2 * k + 1) 0 + data.getD (16 + 2 * k) 0

/-- The decoded voltage field (mV): reversed unsigned bytes 12–15. -/
def voltage_mV (data : List Nat) : Nat :=
  fromBytesBE (pySlice data 12 16).reverse

/-- The decoded raw current field (mA, signed): reversed signed bytes 48–51. -/
def current_mA (data : List Nat) : Int :=
  fromBytesBESigned (pySlice data 48 52).reverse

/-! ### Example buffers

A 104-byte battery-info payload (offsets as in the response map); full frames
append a trailing checksum byte. The values encode the battery of the
specification's decoding scenario: pack voltage 13280 mV, voltage 13275 mV,
four cells at 3.32 V, current −2500 mA, SOC 85 %. -/

def demoData : List Nat :=
  [0, 0, 0x68, 0x01, 0x13, 0x55, 0xAA, 0x00,
   0xE0, 0x33, 0, 0,
   0xDB, 0x33, 0, 0,
   0xF8, 0x0C, 0xF8, 0x0C, 0xF8, 0x0C, 0xF8, 0x0C,
   0, 0, 0, 0, 0, 0, 0, 0,
   0, 0, 0, 0, 0, 0, 0, 0,
   0, 0, 0, 0, 0, 0, 0, 0,
   0x3C, 0xF6, 0xFF, 0xFF,
   0x14, 0, 0x15, 0,
   0, 0, 0, 0, 0, 0,
   0x34, 0x21, 0x10, 0x27,
   0, 0,
   0x12, 0, 0, 0,
   0, 0, 0, 0,
   0, 0, 0, 0,
   0, 0, 0, 0,
   0, 0, 0, 0,
   2, 0,
   85, 0,
   100, 0, 0, 0,
   10, 0, 0, 0,
   0xE8, 0x03, 0, 0]

/-- A well-formed 105-byte battery-info frame. -/
def demoBuf : List Nat := demoData ++ [crc_sum demoData]

/-- The same payload with a deliberately corrupted trailing checksum byte. -/
def c1buf : List Nat := demoData ++ [(crc_sum demoData + 1) % 256]

/-- The instance state after parsing the corrupted frame. -/
def c1res : BatteryInfo :=
  (parse_battery_info initBatteryInfo c1buf).getD initBatteryInfo

/-- A 103-byte buffer (shorter than the 104-byte minimum) with a correct
trailing checksum over its first 102 bytes. -/
def c2buf : List Nat := demoData.take 102 ++ [crc_sum (demoData.take 102)]

/-- The instance state after parsing the 103-byte buffer. -/
def c2res : BatteryInfo :=
  (parse_battery_info initBatteryInfo c2buf).getD initBatteryInfo

/-- A full frame whose heat-flags byte 68 is `0xA2`, so that the 7th hex
character (index 6) of the heat string is the letter `a`. -/
def c3buf : List Nat :=
  demoData.set 68 0xA2 ++ [crc_sum (demoData.set 68 0xA2)]

/-- A full frame whose state-of-charge field (bytes 90–91) encodes 200. -/
def c4buf : List Nat :=
  demoData.set 90 200 ++ [crc_sum (demoData.set 90 200)]

/-- The instance state after parsing the SOC-200 frame. -/
def c4res : BatteryInfo :=
  (parse_battery_info initBatteryInfo c4buf).getD initBatteryInfo

/-! ### Claims C5 and C7: status classifier and command frames -/

/-- C5: the battery status classifier maps `current == 0` to "Standby",
`current > 0` to "Charging", `current < 0` to "Discharging", and then
unconditionally overrides the result to "Full Charge" whenever
state-of-charge ≥ 100 or the battery operating state equals Full (4); in
particular, for current = −5 and state-of-charge = 100 the result is
"Full Charge", not "Discharging". -/
theorem get_battery_status_spec (current : ℚ) (SOC batteryState : Nat) :
    get_battery_status current SOC batteryState =
      (if 100 ≤ SOC ∨ batteryState = 4 then "Full Charge"
       else if current = 0 then "Standby"
       else if 0 < current then "Charging"
       else "Discharging") ∧
    get_battery_status (-5) 100 2 = "Full Charge" ∧
    get_battery_status (-5) 100 2 ≠ "Discharging" := by
  have h2 : get_battery_status (-5) 100 2 = "Full Charge" := by
    norm_num [get_battery_status]
  refine ⟨?_, h2, by rw [h2]; decide⟩
  unfold get_battery_status
  rcases lt_trichotomy current 0 with h | h | h <;>
    split_ifs <;> simp_all

/-- C7: each of the three command frames is exactly 8 bytes of the form
`00 00 04 01 <cmd-id> 55 AA <checksum>`, its last byte is the additive 8-bit
sum of its first 7 bytes mod 256, the command-id bytes are 0x16 / 0x13 / 0x10
for version / battery info / serial number, and re-deriving the kind from the
command-id byte of the encoded frame recovers the original kind. -/
theorem pq_commands_frames :
    (∀ k, (pq_commands k).length = 8 ∧
      (pq_commands k).take 4 = [0x00, 0x00, 0x04, 0x01] ∧
      pySlice (pq_commands k) 5 7 = [0x55, 0xAA] ∧
      (pq_commands k).getD 7 0 = crc_sum ((pq_commands k).take 7) ∧
      kindOfCommandId ((pq_commands k).getD 4 0) = some k) ∧
    (pq_commands CommandKind.GET_VERSION).getD 4 0 = 0x16 ∧
    (pq_commands CommandKind.GET_BATTERY_INFO).getD 4 0 = 0x13 ∧
    (pq_commands CommandKind.SERIAL_NUMBER).getD 4 0 = 0x10 := by
  refine ⟨fun k => ?_, by decide, by decide, by decide⟩
  cases k <;> decide

/-! ### Basic lemmas about slices, byte decoding and the hex string -/

theorem crcTag_batteryPack (st : BatteryInfo) (data : List Nat) :
    (crcTag st data).batteryPack = st.batteryPack := by
  simp only [crcTag]
  split <;> rfl

theorem crcTag_error_code (st : BatteryInfo) (data : List Nat) :
    (crcTag st data).error_code = st.error_code := by
  simp only [crcTag]
  split <;> rfl

theorem pySlice_getD (data : List Nat) (a b i : Nat) :
    (pySlice data a b).getD i 0 =
      if i < b - a then data.getD (a + i) 0 else 0 := by
  unfold pySlice
  by_cases h : i < b - a
  · rw [if_pos h]
    simp [List.getD, List.getElem?_take_of_lt h, List.getElem?_drop]
  · rw [if_neg h]
    have hlen : ((data.drop a).take (b - a)).length ≤ i := by
      have := List.length_take (b - a) (data.drop a)
      omega
    simp [List.getD, List.getElem?_eq_none hlen]

theorem pySlice_length_of_le (data : List Nat) (a b : Nat)
    (hab : a ≤ b) (hb : b ≤ data.length) :
    (pySlice data a b).length = b - a := by
  unfold pySlice
  rw [List.length_take, List.length_drop]
  omega

theorem getD_drop (data : List Nat) (a i : Nat) :
    (data.drop a).getD i 0 = data.getD (a + i) 0 := by
  simp [List.getD, List.getElem?_drop]

theorem fromBytesBE_reverse_two (data : List Nat) (a : Nat) :
    fromBytesBE (pySlice data a (a + 2)).reverse =
      256 * data.getD (a + 1) 0 + data.getD a 0 := by
  have h0 : data.getD a 0 = (data.drop a).getD 0 0 := by
    simp [getD_drop]
  have h1 : data.getD (a + 1) 0 = (data.drop a).getD 1 0 := by
    simp [getD_drop]
  rw [h0, h1]
  unfold pySlice
  have hrw : a + 2 - a = 2 := by omega
  rw [hrw]
  rcases data.drop a with _ | ⟨x, _ | ⟨y, rest⟩⟩ <;>
    simp [fromBytesBE, List.getD]

theorem hexDigits_length (bs : List Nat) :
    (hexDigits bs).length = 2 * bs.length := by
  induction bs with
  | nil => rfl
  | cons b rest ih => simp [hexDigits] at ih ⊢; omega

theorem hexDigits_get? (bs : List Nat) (i : Nat) (h : i < bs.length) :
    (hexDigits bs).get? (2 * i) = some (bs.getD i 0 / 16) ∧
    (hexDigits bs).get? (2 * i + 1) = some (bs.getD i 0 % 16) := by
  induction bs generalizing i with
  | nil => simp at h
  | cons b rest ih =>
    cases i with
    | zero => simp [hexDigits, List.getD]
    | succ j =>
      have hj : j < rest.length := by simpa using h
      have e1 : 2 * (j + 1) = (2 * j).succ.succ := by omega
      have e2 : 2 * (j + 1) + 1 = (2 * j + 1).succ.succ := by omega
      constructor
      · rw [e1]
        simpa [hexDigits, List.getD] using (ih j hj).1
      · rw [e2]
        simpa [hexDigits, List.getD] using (ih j hj).2

theorem getD_lt_of_bytes (l : List Nat) (i : Nat)
    (hb : ∀ b ∈ l, b < 256) : l.getD i 0 < 256 := by
  rcases h : l[i]? with _ | b
  · simp [List.getD, h]
  · have hmem : b ∈ l := List.getElem?_mem h
    have := hb b hmem
    simp [List.getD, h]
    omega

/-! ### Lemmas about the insertion-ordered dictionary -/

theorem dictFind_dictInsert_self (m : List (Nat × ℚ)) (k : Nat) (v : ℚ) :
    dictFind (dictInsert m k v) k = some v := by
  induction m with
  | nil => simp [dictInsert, dictFind, List.find?]
  | cons p rest ih =>
    by_cases hp : p.1 = k
    · simp [dictInsert, hp, dictFind, List.find?]
    · have hbk : (p.1 == k) = false := beq_eq_false_iff_ne.mpr hp
      simpa [dictInsert, hp, dictFind, List.find?, hbk] using ih

theorem dictFind_dictInsert_ne (m : List (Nat × ℚ)) {j k : Nat} (v : ℚ)
    (h : k ≠ j) : dictFind (dictInsert m j v) k = dictFind m k := by
  have hjk : (j == k) = false := beq_eq_false_iff_ne.mpr (Ne.symm h)
  induction m with
  | nil => simp [dictInsert, dictFind, List.find?, hjk]
  | cons p rest ih =>
    by_cases hp : p.1 = j
    · have hpk : (p.1 == k) = false := by rw [hp]; exact hjk
      simp [dictInsert, hp, dictFind, List.find?, hjk, hpk]
    · by_cases hpk : p.1 = k
      · have hbk : (p.1 == k) = true := beq_iff_eq.mpr hpk
        simp [dictInsert, hp, dictFind, List.find?, hbk]
      · have hbk : (p.1 == k) = false := beq_eq_false_iff_ne.mpr hpk
        simpa [dictInsert, hp, dictFind, List.find?, hbk] using ih

theorem dictFind_isSome_dictInsert (m : List (Nat × ℚ)) (j k : Nat) (v : ℚ)
    (h : (dictFind m k).isSome = true) :
    (dictFind (dictInsert m j v) k).isSome = true := by
  by_cases hk : k = j
  · subst hk
    rw [dictFind_dictInsert_self]
    rfl
  · rw [dictFind_dictInsert_ne m v hk]
    exact h

theorem dictFind_eq_none_of_keys (m : List (Nat × ℚ)) (k : Nat)
    (h : ∀ p ∈ m, p.1 ≠ k) : dictFind m k = none := by
  unfold dictFind
  have : List.find? (fun p => p.1 == k) m = none := by
    rw [List.find?_eq_none]
    intro p hp
    simpa using h p hp
  simp [this]

theorem mem_dictInsert (m : List (Nat × ℚ)) (j : Nat) (v : ℚ) (p : Nat × ℚ)
    (hp : p ∈ dictInsert m j v) : p ∈ m ∨ p.1 = j := by
  induction m with
  | nil =>
    rcases List.mem_singleton.mp hp with rfl
    exact Or.inr rfl
  | cons q rest ih =>
    by_cases hq : q.1 = j
    · rw [dictInsert, if_pos hq] at hp
      rcases List.mem_cons.mp hp with rfl | hmem
      · exact Or.inr rfl
      · exact Or.inl (List.mem_cons_of_mem _ hmem)
    · rw [dictInsert, if_neg hq] at hp
      rcases List.mem_cons.mp hp with rfl | hmem
      · exact Or.inl (List.mem_cons_self _ _)
      · rcases ih hmem with h | h
        · exact Or.inl (List.mem_cons_of_mem _ h)
        · exact Or.inr h

theorem dictInsert_of_fresh (m : List (Nat × ℚ)) (j : Nat) (v : ℚ)
    (h : ∀ p ∈ m, p.1 ≠ j) : dictInsert m j v = m ++ [(j, v)] := by
  induction m with
  | nil => rfl
  | cons q rest ih =>
    rw [dictInsert, if_neg (h q (List.mem_cons_self _ _)),
      ih fun p hp => h p (List.mem_cons_of_mem _ hp)]
    rfl

/-! ### Lemmas about the cell-voltage extraction loop -/

/-- The raw 16-bit value of the `i`-th pair of a byte list. -/
def rawAt (bs : List Nat) (i : Nat) : Nat :=
  256 * bs.getD (2 * i + 1) 0 + bs.getD (2 * i) 0

theorem rawAt_cons_cons (a b : Nat) (rest : List Nat) (i : Nat) :
    rawAt (a :: b :: rest) (i + 1) = rawAt rest i := by
  have e1 : 2 * (i + 1) = (2 * i).succ.succ := by omega
  have e2 : 2 * (i + 1) + 1 = (2 * i + 1).succ.succ := by omega
  unfold rawAt
  rw [e2, e1]
  simp [List.getD]

theorem rawAt_zero (a b : Nat) (rest : List Nat) :
    rawAt (a :: b :: rest) 0 = 256 * b + a := by
  simp [rawAt, List.getD]

theorem cellLoop_isSome_of_even :
    ∀ (bs : List Nat) (idx : Nat) (m : List (Nat × ℚ)),
      bs.length % 2 = 0 → (cellLoop bs idx m).isSome = true
  | [], _, _, _ => rfl
  | [_], _, _, h => by simp at h
  | _ :: _ :: rest, idx, m, h => by
      simp only [cellLoop]
      exact cellLoop_isSome_of_even rest (idx + 1) _ (by simp at h; omega)

theorem cellLoop_find_le :
    ∀ (bs : List Nat) (idx : Nat) (m m' : List (Nat × ℚ)),
      cellLoop bs idx m = some m' →
      ∀ k, k ≤ idx → dictFind m' k = dictFind m k
  | [], idx, m, m', h, k, hk => by
      simp only [cellLoop, Option.some.injEq] at h
      rw [h]
  | [_], idx, m, m', h, k, hk => by simp [cellLoop] at h
  | dt :: hi :: rest, idx, m, m', h, k, hk => by
      simp only [cellLoop] at h
      rw [cellLoop_find_le rest (idx + 1) _ m' h k (le_trans hk (Nat.le_succ idx))]
      by_cases hz : 256 * hi + dt = 0
      · rw [if_pos hz]
      · rw [if_neg hz, dictFind_dictInsert_ne m _ (by omega)]

theorem cellLoop_find_isSome :
    ∀ (bs : List Nat) (idx : Nat) (m m' : List (Nat × ℚ)),
      cellLoop bs idx m = some m' →
      ∀ k, (dictFind m k).isSome = true → (dictFind m' k).isSome = true
  | [], idx, m, m', h, k, hk => by
      simp only [cellLoop, Option.some.injEq] at h
      rw [← h]
      exact hk
  | [_], idx, m, m', h, k, hk => by simp [cellLoop] at h
  | dt :: hi :: rest, idx, m, m', h, k, hk => by
      simp only [cellLoop] at h
      refine cellLoop_find_isSome rest (idx + 1) _ m' h k ?_
      by_cases hz : 256 * hi + dt = 0
      · rwa [if_pos hz]
      · rw [if_neg hz]
        exact dictFind_isSome_dictInsert m (idx + 1) k _ hk

theorem cellLoop_find_untouched :
    ∀ (bs : List Nat) (idx : Nat) (m m' : List (Nat × ℚ)),
      cellLoop bs idx m = some m' →
      ∀ k, (idx < k → rawAt bs (k - idx - 1) = 0) →
      dictFind m' k = dictFind m k
  | [], idx, m, m', h, k, _ => by
      simp only [cellLoop, Option.some.injEq] at h
      rw [h]
  | [_], idx, m, m', h, k, _ => by simp [cellLoop] at h
  | dt :: hi :: rest, idx, m, m', h, k, hz => by
      simp only [cellLoop] at h
      rcases Nat.lt_trichotomy k (idx + 1) with hk | hk | hk
      · rw [cellLoop_find_le rest (idx + 1) _ m' h k (by omega)]
        by_cases hz' : 256 * hi + dt = 0
        · rw [if_pos hz']
        · rw [if_neg hz', dictFind_dictInsert_ne m _ (by omega)]
      · have hraw : 256 * hi + dt = 0 := by
          have hr := hz (by omega)
          have hsub : k - idx - 1 = 0 := by omega
          rw [hsub, rawAt_zero] at hr
          exact hr
        rw [cellLoop_find_le rest (idx + 1) _ m' h k (by omega), if_pos hraw]
      · have hnext : idx + 1 < k → rawAt rest (k - (idx + 1) - 1) = 0 := by
          intro _
          have hr := hz (by omega)
          have e : k - idx - 1 = (k - (idx + 1) - 1) + 1 := by omega
          rw [e, rawAt_cons_cons] at hr
          exact hr
        rw [cellLoop_find_untouched rest (idx + 1) _ m' h k hnext]
        by_cases hz' : 256 * hi + dt = 0
        · rw [if_pos hz']
        · rw [if_neg hz', dictFind_dictInsert_ne m _ (by omega)]

theorem cellLoop_find_fresh :
    ∀ (bs : List Nat) (idx : Nat) (m m' : List (Nat × ℚ)),
      cellLoop bs idx m = some m' →
      (∀ p ∈ m, p.1 ≤ idx) →
      ∀ k, idx < k →
      dictFind m' k =
        if 2 * (k - idx) ≤ bs.length ∧ rawAt bs (k - idx - 1) ≠ 0
        then some ((rawAt bs (k - idx - 1) : ℚ) / 1000) else none
  | [], idx, m, m', h, hkeys, k, hk => by
      simp only [cellLoop, Option.some.injEq] at h
      subst h
      rw [if_neg (by simp; omega)]
      exact dictFind_eq_none_of_keys m k fun p hp => by
        have := hkeys p hp
        omega
  | [_], idx, m, m', h, hkeys, k, hk => by simp [cellLoop] at h
  | dt :: hi :: rest, idx, m, m', h, hkeys, k, hk => by
      simp only [cellLoop] at h
      rcases Nat.lt_or_ge (idx + 1) k with hk1 | hk1
      · have hkeys' : ∀ p ∈ (if 256 * hi + dt = 0 then m
            else dictInsert m (idx + 1) (((256 * hi + dt : ℕ) : ℚ) / 1000)),
            p.1 ≤ idx + 1 := by
          intro p hp
          by_cases hz : 256 * hi + dt = 0
          · rw [if_pos hz] at hp
            have := hkeys p hp
            omega
          · rw [if_neg hz] at hp
            rcases mem_dictInsert _ _ _ _ hp with hmem | hkey
            · have := hkeys p hmem
              omega
            · omega
        rw [cellLoop_find_fresh rest (idx + 1) _ m' h hkeys' k hk1]
        have e : k - (idx + 1) - 1 = k - idx - 2 := by omega
        have e2 : k - idx - 1 = (k - idx - 2) + 1 := by omega
        have e3 : rawAt (dt :: hi :: rest) (k - idx - 1) = rawAt rest (k - idx - 2) := by
          rw [e2, rawAt_cons_cons]
        by_cases hc : 2 * (k - (idx + 1)) ≤ rest.length ∧
            rawAt rest (k - (idx + 1) - 1) ≠ 0
        · rw [if_pos hc, if_pos]
          · rw [e] at hc
            rw [e3, ← e]
          · constructor
            · have := hc.1
              simp only [List.length_cons]
              omega
            · rw [e3, ← e]
              exact hc.2
        · rw [if_neg hc, if_neg]
          intro hcon
          refine hc ⟨?_, ?_⟩
          · have := hcon.1
            simp only [List.length_cons] at this
            omega
          · rw [e, ← e3]
            exact hcon.2
      · have hk2 : k = idx + 1 := by omega
        subst hk2
        have hsub : idx + 1 - idx - 1 = 0 := by omega
        rw [hsub, rawAt_zero]
        by_cases hz : 256 * hi + dt = 0
        · rw [if_pos hz] at h
          rw [cellLoop_find_le rest (idx + 1) _ m' h (idx + 1) (le_refl _)]
          rw [if_neg (by omega)]
          exact dictFind_eq_none_of_keys m (idx + 1) fun p hp => by
            have := hkeys p hp
            omega
        · rw [if_neg hz] at h
          rw [cellLoop_find_le rest (idx + 1) _ m' h (idx + 1) (le_refl _),
            dictFind_dictInsert_self]
          rw [if_pos ⟨by simp only [List.length_cons]; omega, hz⟩]

theorem cellLoop_chain :
    ∀ (bs : List Nat) (idx : Nat) (m m' : List (Nat × ℚ)),
      cellLoop bs idx m = some m' →
      (∀ p ∈ m, p.1 ≤ idx) →
      List.Chain' (· < ·) (m.map Prod.fst) →
      List.Chain' (· < ·) (m'.map Prod.fst)
  | [], idx, m, m', h, _, hc => by
      simp only [cellLoop, Option.some.injEq] at h
      rw [← h]
      exact hc
  | [_], idx, m, m', h, _, _ => by simp [cellLoop] at h
  | dt :: hi :: rest, idx, m, m', h, hkeys, hc => by
      simp only [cellLoop] at h
      by_cases hz : 256 * hi + dt = 0
      · rw [if_pos hz] at h
        exact cellLoop_chain rest (idx + 1) _ m' h
          (fun p hp => by have := hkeys p hp; omega) hc
      · rw [if_neg hz] at h
        have hfresh : ∀ p ∈ m, p.1 ≠ idx + 1 := fun p hp => by
          have := hkeys p hp
          omega
        rw [dictInsert_of_fresh m _ _ hfresh] at h
        refine cellLoop_chain rest (idx + 1) _ m' h ?_ ?_
        · intro p hp
          rcases List.mem_append.mp hp with hmem | hmem
          · have := hkeys p hmem
            omega
          · rcases List.mem_singleton.mp hmem with rfl
            exact le_refl _
        · rw [List.map_append, List.chain'_append]
          refine ⟨hc, by simp, ?_⟩
          intro x hx y hy
          simp only [List.map_cons, List.map_nil, List.head?_cons,
            Option.mem_def, Option.some.injEq] at hy
          subst hy
          have hxmem : x ∈ m.map Prod.fst := List.mem_of_mem_getLast? hx
          rcases List.mem_map.mp hxmem with ⟨p, hp, rfl⟩
          have := hkeys p hp
          omega

/-! ### Inversion of a successful parse -/

/-- The record a successful `parse_battery_info` returns, given the values of
the four fallible intermediate steps (cell loop, two heat digits, cell
status). -/
def parsedRecord (self : BatteryInfo) (data : List Nat)
    (bp : List (Nat × ℚ)) (d6 d7 : Nat) (cs : String) : BatteryInfo :=
  { self with
    packVoltage := some (fromBytesBE (pySlice data 8 12).reverse)
    voltage := some (voltage_mV data)
    batteryPack := bp
    current := some (pyRound ((current_mA data : ℚ) / 1000) 2)
    watt := some (pyRound
      (pyRound (((voltage_mV data : ℤ) * current_mA data : ℚ) / 10000) 1 / 100) 2)
    remainAh := some (pyRound ((fromBytesBE (pySlice data 62 64).reverse : ℚ) / 100) 2)
    factoryAh := some (pyRound ((fromBytesBE (pySlice data 64 66).reverse : ℚ) / 100) 2)
    cellTemperature := some (fromBytesBESigned (pySlice data 52 54).reverse)
    mosfetTemperature := some (fromBytesBESigned (pySlice data 54 56).reverse)
    heat := some (hexDigits (pySlice data 68 72).reverse)
    protectState := some (hexDigits (pySlice data 76 80).reverse)
    failureState := some (pySlice data 80 84).reverse
    equilibriumState := some (fromBytesBE (pySlice data 84 88).reverse)
    batteryState := some (fromBytesBE (pySlice data 88 90).reverse)
    SOC := some (fromBytesBE (pySlice data 90 92).reverse)
    SOH := some (fromBytesBE (pySlice data 92 96).reverse)
    dischargeSwitchState := some (if d6 ≥ 8 then 0 else 1)
    dischargesCount := some (fromBytesBE (pySlice data 96 100).reverse)
    dischargesAHCount := some (fromBytesBE (pySlice data 100 104).reverse)
    battery_status := some (get_battery_status
      (pyRound ((current_mA data : ℚ) / 1000) 2)
      (fromBytesBE (pySlice data 90 92).reverse)
      (fromBytesBE (pySlice data 88 90).reverse))
    balance_status := some (if fromBytesBE (pySlice data 84 88).reverse > 0 then
      "Battery cells are being balanced for better performance."
      else "All cells are well-balanced.")
    cell_status := some cs
    heat_status := some (if d7 = 2 then "Self-heating is on"
      else "Self-heating is off") }

theorem parse_inv {st st' : BatteryInfo} {data : List Nat}
    (hp : parse_battery_info st data = some st') :
    ∃ bp h6 d6 cs h7 d7,
      cellLoop (pySlice data 16 48) 0 st.batteryPack = some bp ∧
      (hexDigits (pySlice data 68 72).reverse).get? 6 = some h6 ∧
      pyIntDigit h6 = some d6 ∧
      cellStatusOf (pySlice data 80 84).reverse = some cs ∧
      (hexDigits (pySlice data 68 72).reverse).get? 7 = some h7 ∧
      pyIntDigit h7 = some d7 ∧
      st' = parsedRecord (crcTag st data) data bp d6 d7 cs := by
  rw [parse_battery_info] at hp
  rw [parse_battery_info_body] at hp
  rw [crcTag_batteryPack] at hp
  simp only [bind, Option.bind_eq_some, Option.pure_def, Option.some.injEq] at hp
  obtain ⟨bp, hbp, h6, hh6, d6, hd6, cs, hcs, h7, hh7, d7, hd7, hst⟩ := hp
  exact ⟨bp, h6, d6, cs, h7, d7, hbp, hh6, hd6, hcs, hh7, hd7, hst.symm⟩

/-- An `Option` known to be `some` equals `some` of its `getD` value. -/
theorem eq_some_getD {α : Type} {o : Option α} (d : α) (h : o.isSome = true) :
    o = some (o.getD d) := by
  cases o with
  | none => exact absurd h (by simp)
  | some a => rfl

/-- The instance state after parsing the well-formed demo frame. -/
def demoRes : BatteryInfo :=
  (parse_battery_info initBatteryInfo demoBuf).getD initBatteryInfo

/-! ### Claim C4: the decoded state of charge -/

/-- C4 (amended): the decoded SOC is the unsigned 16-bit value of the
reversed 2-byte field at 90–91 — at most 65535, but not clamped or checked
against 100; it lies in 0–100 only when the raw field already does. -/
theorem parse_SOC_raw (st st' : BatteryInfo) (data : List Nat)
    (hb : ∀ b ∈ data, b < 256)
    (hp : parse_battery_info st data = some st') :
    st'.SOC = some (256 * data.getD 91 0 + data.getD 90 0) ∧
    256 * data.getD 91 0 + data.getD 90 0 ≤ 65535 := by
  obtain ⟨bp, h6, d6, cs, h7, d7, _, _, _, _, _, _, hst⟩ := parse_inv hp
  constructor
  · rw [hst]
    show some (fromBytesBE (pySlice data 90 92).reverse) = _
    have e := fromBytesBE_reverse_two data 90
    simp only [show (90 : ℕ) + 2 = 92 from rfl, show (90 : ℕ) + 1 = 91 from rfl] at e
    rw [e]
  · have h91 := getD_lt_of_bytes data 91 hb
    have h90 := getD_lt_of_bytes data 90 hb
    omega

/-- C4 (counterexample): a full battery-info frame whose SOC field encodes
200 decodes to `SOC = 200`, outside 0–100: the decoder does not bound the
state of charge. -/
theorem parse_SOC_exceeds_100 :
    parse_battery_info initBatteryInfo c4buf = some c4res ∧
    c4res.SOC = some 200 ∧ ¬(200 : Nat) ≤ 100 :=
  ⟨eq_some_getD initBatteryInfo (by decide), by decide, by decide⟩

/-- C4 (witness): the amended statement applied to the demo frame. -/
theorem parse_SOC_raw_witness :
    (∀ b ∈ demoBuf, b < 256) ∧
    (demoRes.SOC = some (256 * demoBuf.getD 91 0 + demoBuf.getD 90 0) ∧
      256 * demoBuf.getD 91 0 + demoBuf.getD 90 0 ≤ 65535) :=
  ⟨by decide, parse_SOC_raw initBatteryInfo demoRes demoBuf (by decide)
    (eq_some_getD initBatteryInfo (by decide))⟩

/-! ### Claim C9: the two-stage power rounding -/

/-- C9: for every successfully decoded battery-info buffer, the power field
equals `round(round((voltage_mV * current_mA) / 10000, 1) / 100, 2)`, the
two-stage rounding; and the two-stage formula differs from the single
division `round(v * c / 1000000, 2)` (witnessed at `v * c = 12345100`), so
the intermediate rounding is observable. -/
theorem parse_watt_two_stage (st st' : BatteryInfo) (data : List Nat)
    (hp : parse_battery_info st data = some st') :
    st'.watt = some (pyRound
      (pyRound (((voltage_mV data : ℤ) * current_mA data : ℚ) / 10000) 1 / 100) 2) ∧
    pyRound (pyRound ((12345100 : ℚ) / 10000) 1 / 100) 2 ≠
      pyRound ((12345100 : ℚ) / 1000000) 2 := by
  constructor
  · obtain ⟨bp, h6, d6, cs, h7, d7, _, _, _, _, _, _, hst⟩ := parse_inv hp
    rw [hst]
    rfl
  · have e1 : pyRound ((12345100 : ℚ) / 10000) 1 = 12345 / 10 := by
      norm_num [pyRound, roundHalfEven, Int.fract]
    have e2 : pyRound ((12345 : ℚ) / 10 / 100) 2 = 1234 / 100 := by
      norm_num [pyRound, roundHalfEven, Int.fract]
    have e3 : pyRound ((12345100 : ℚ) / 1000000) 2 = 1235 / 100 := by
      norm_num [pyRound, roundHalfEven, Int.fract]
    rw [e1, e2, e3]
    norm_num

/-- C9 (witness): the theorem applied to the demo frame. -/
theorem parse_watt_two_stage_witness :
    demoRes.watt = some (pyRound
      (pyRound (((voltage_mV demoBuf : ℤ) * current_mA demoBuf : ℚ) / 10000) 1 / 100) 2) ∧
    pyRound (pyRound ((12345100 : ℚ) / 10000) 1 / 100) 2 ≠
      pyRound ((12345100 : ℚ) / 1000000) 2 :=
  parse_watt_two_stage initBatteryInfo demoRes demoBuf
    (eq_some_getD initBatteryInfo (by decide))

/-- C1: on a frame whose trailing byte differs from the additive checksum of
the preceding bytes, the parser does run to completion and populates the full
record and an error message — but the wrapper assigns the stray attribute
`error` (value `ERROR_CHECKSUM = 6`), not `error_code`, which stays 0; the
taint is therefore invisible to `error_code`-based callers, contradicting the
claim and the decorator's own docstring. -/
theorem checksum_mismatch_error_code_unchanged :
    checksumOk c1buf = false ∧
    parse_battery_info initBatteryInfo c1buf = some c1res ∧
    c1res.error = some ERROR_CHECKSUM ∧
    c1res.error_message.isSome = true ∧
    c1res.error_code = 0 ∧
    c1res.packVoltage.isSome = true ∧
    c1res.voltage.isSome = true ∧
    c1res.batteryPack ≠ [] ∧
    c1res.current.isSome = true ∧
    c1res.watt.isSome = true ∧
    c1res.remainAh.isSome = true ∧
    c1res.factoryAh.isSome = true ∧
    c1res.cellTemperature.isSome = true ∧
    c1res.mosfetTemperature.isSome = true ∧
    c1res.heat.isSome = true ∧
    c1res.protectState.isSome = true ∧
    c1res.failureState.isSome = true ∧
    c1res.equilibriumState.isSome = true ∧
    c1res.batteryState.isSome = true ∧
    c1res.SOC.isSome = true ∧
    c1res.SOH.isSome = true ∧
    c1res.dischargeSwitchState.isSome = true ∧
    c1res.dischargesCount.isSome = true ∧
    c1res.dischargesAHCount.isSome = true ∧
    c1res.battery_status.isSome = true ∧
    c1res.balance_status.isSome = true ∧
    c1res.cell_status.isSome = true ∧
    c1res.heat_status.isSome = true :=
  ⟨by decide, eq_some_getD initBatteryInfo (by decide), by decide⟩

/-- C3: the discharge-switch derivation is not total over the hex letters:
on a buffer whose heat hex character at index 6 is `a` (value 10, which is
≥ 8, so the claim requires switch state 0) the parser raises `ValueError`
(`int('a')` with no base), aborting instead of decoding. -/
theorem discharge_switch_hex_letter_raises :
    (hexDigits (pySlice c3buf 68 72).reverse).getD 6 0 = 10 ∧
    parse_battery_info initBatteryInfo c3buf = none := by
  decide

/-! ### Claim C6: the cell-voltage mapping of a single parse -/

theorem rawAt_pySlice_cells (data : List Nat) (k : Nat) :
    rawAt (pySlice data 16 48) k = if k < 16 then cellRaw data k else 0 := by
  unfold rawAt cellRaw
  rw [pySlice_getD, pySlice_getD]
  by_cases h : k < 16
  · rw [if_pos h, if_pos (by omega), if_pos (by omega)]
    have e1 : 16 + (2 * k + 1) = 16 + 2 * k + 1 := by omega
    rw [e1]
  · rw [if_neg h, if_neg (by omega), if_neg (by omega)]

/-- C6: for a battery-info buffer of sufficient length parsed into a fresh
instance, the cell mapping holds key `k + 1` with value
`big-endian([data[16+2k+1], data[16+2k]]) / 1000` exactly when that raw
16-bit value is nonzero, holds no entry for `k + 1` when it is zero, and its
entries appear in ascending cell-index order. -/
theorem parse_cell_mapping (data : List Nat) (st' : BatteryInfo)
    (hlen : 104 ≤ data.length)
    (hp : parse_battery_info initBatteryInfo data = some st') :
    (∀ k, k < 16 →
      (cellRaw data k ≠ 0 →
        dictFind st'.batteryPack (k + 1) = some ((cellRaw data k : ℚ) / 1000)) ∧
      (cellRaw data k = 0 → dictFind st'.batteryPack (k + 1) = none)) ∧
    List.Chain' (· < ·) (st'.batteryPack.map Prod.fst) := by
  obtain ⟨bp, h6, d6, cs, h7, d7, hbp, _, _, _, _, _, hst⟩ := parse_inv hp
  have hbpack : st'.batteryPack = bp := by rw [hst]; rfl
  have hinit : initBatteryInfo.batteryPack = ([] : List (Nat × ℚ)) := rfl
  rw [hinit] at hbp
  have hslen : (pySlice data 16 48).length = 32 :=
    pySlice_length_of_le data 16 48 (by omega) (by omega)
  constructor
  · intro k hk
    have hfresh := cellLoop_find_fresh _ 0 _ bp hbp (by simp) (k + 1) (by omega)
    have e : k + 1 - 0 - 1 = k := by omega
    rw [e, hslen, rawAt_pySlice_cells, if_pos hk] at hfresh
    constructor
    · intro hnz
      rw [hbpack, hfresh, if_pos ⟨by omega, hnz⟩]
    · intro hz
      rw [hbpack, hfresh, if_neg (by simp [hz])]
  · rw [hbpack]
    exact cellLoop_chain _ 0 _ bp hbp (by simp) (by simp)

/-- C6 (witness): on the demo frame, cell pair 0 is nonzero and appears at
key 1 with the decoded voltage. -/
theorem parse_cell_mapping_witness :
    104 ≤ demoBuf.length ∧ cellRaw demoBuf 0 ≠ 0 ∧
    dictFind demoRes.batteryPack 1 = some ((cellRaw demoBuf 0 : ℚ) / 1000) :=
  ⟨by decide, by decide,
   ((parse_cell_mapping demoBuf demoRes (by decide)
      (eq_some_getD initBatteryInfo (by decide))).1 0 (by decide)).1 (by decide)⟩

/-! ### Claim C10: the cell mapping is never cleared between parses -/

/-- C10: across two successive calls to `parse_battery_info`, every cell
index present in the mapping before the second call is still present
afterwards, and keeps its old value whenever the second buffer's raw reading
for that cell is zero — the mapping is only added to or overwritten, never
cleared. -/
theorem parse_batteryPack_monotone (st1 st2 st3 : BatteryInfo)
    (d1 d2 : List Nat)
    (_h1 : parse_battery_info st1 d1 = some st2)
    (h2 : parse_battery_info st2 d2 = some st3) :
    ∀ k v, dictFind st2.batteryPack k = some v →
      (dictFind st3.batteryPack k).isSome = true ∧
      ((1 ≤ k → cellRaw d2 (k - 1) = 0) →
        dictFind st3.batteryPack k = some v) := by
  intro k v hk
  obtain ⟨bp, h6, d6, cs, h7, d7, hbp, _, _, _, _, _, hst⟩ := parse_inv h2
  have hbpack : st3.batteryPack = bp := by rw [hst]; rfl
  constructor
  · rw [hbpack]
    exact cellLoop_find_isSome _ 0 _ bp hbp k (by rw [hk]; rfl)
  · intro hzero
    rw [hbpack]
    rw [cellLoop_find_untouched _ 0 _ bp hbp k ?_, hk]
    intro hk0
    have e : k - 0 - 1 = k - 1 := by omega
    rw [e, rawAt_pySlice_cells]
    by_cases hk16 : k - 1 < 16
    · rw [if_pos hk16]
      exact hzero (by omega)
    · rw [if_neg hk16]

/-- A second battery-info payload whose first cell pair reads zero. -/
def c10buf : List Nat :=
  (demoData.set 16 0).set 17 0 ++ [crc_sum ((demoData.set 16 0).set 17 0)]

/-- The instance state after the second parse. -/
def c10res : BatteryInfo :=
  (parse_battery_info demoRes c10buf).getD initBatteryInfo

/-- The cell-1 voltage stored by the first parse. -/
def c10v : ℚ := (dictFind demoRes.batteryPack 1).getD 0

/-- C10 (witness): parse the demo frame, then a frame with cell 1 absent;
cell 1 keeps its old value. -/
theorem parse_batteryPack_monotone_witness :
    dictFind demoRes.batteryPack 1 = some c10v ∧
    (dictFind c10res.batteryPack 1).isSome = true ∧
    ((1 ≤ 1 → cellRaw c10buf (1 - 1) = 0) →
      dictFind c10res.batteryPack 1 = some c10v) := by
  have hfind : dictFind demoRes.batteryPack 1 = some c10v :=
    eq_some_getD 0 (by decide)
  have h := parse_batteryPack_monotone initBatteryInfo demoRes c10res demoBuf
    c10buf (eq_some_getD initBatteryInfo (by decide))
    (eq_some_getD initBatteryInfo (by decide)) 1 c10v hfind
  exact ⟨hfind, h.1, h.2⟩

/-! ### Claim C8: checksum verification and single-bit flips -/

theorem sum_set_getD (l : List Nat) (i : Nat) (a : Nat) (h : i < l.length) :
    (l.set i a).sum + l.getD i 0 = l.sum + a := by
  induction l generalizing i with
  | nil => simp at h
  | cons x t ih =>
    cases i with
    | zero =>
      simp [List.getD]
      omega
    | succ j =>
      have hj : j < t.length := by simpa using h
      have := ih j hj
      simp [List.getD] at this ⊢
      omega

theorem xor_two_pow_cases : ∀ b < 256, ∀ j < 8,
    (b ^^^ 2 ^ j) = b + 2 ^ j ∨ (2 ^ j ≤ b ∧ (b ^^^ 2 ^ j) + 2 ^ j = b) := by
  decide

theorem two_pow_lt_256 : ∀ j < 8, 0 < 2 ^ j ∧ 2 ^ j < 256 := by
  decide

theorem lastSlice_concat (l : List Nat) (c : Nat) :
    lastSlice (l ++ [c]) = [c] := by
  unfold lastSlice
  rw [List.length_append]
  simp

theorem checksumOk_concat (l : List Nat) (c : Nat) :
    checksumOk (l ++ [c]) = (c == crc_sum l) := by
  unfold checksumOk
  rw [lastSlice_concat, List.dropLast_concat]
  simp [fromBytesLE]

/-- C8: a frame whose trailing byte is the additive 8-bit sum of the payload
verifies; and flipping any single bit of any payload byte of such a frame
makes verification fail. -/
theorem checksum_verify_bitflip (payload : List Nat)
    (hbytes : ∀ b ∈ payload, b < 256) :
    checksumOk (payload ++ [crc_sum payload]) = true ∧
    ∀ i, i < payload.length → ∀ j, j < 8 →
      checksumOk (payload.set i (payload.getD i 0 ^^^ 2 ^ j) ++
        [crc_sum payload]) = false := by
  constructor
  · rw [checksumOk_concat]
    simp
  · intro i hi j hj
    rw [checksumOk_concat]
    have hold : payload.getD i 0 < 256 := getD_lt_of_bytes payload i hbytes
    have hsum := sum_set_getD payload i (payload.getD i 0 ^^^ 2 ^ j) hi
    have hpow := two_pow_lt_256 j hj
    simp only [crc_sum, beq_eq_false_iff_ne]
    intro hcontra
    rcases xor_two_pow_cases (payload.getD i 0) hold j hj with hc | ⟨hle, hc⟩ <;>
      omega

/-- C8 (witness): the theorem applied to the 7-byte battery-info command
payload, flipping bit 0 of the command-id byte. -/
theorem checksum_verify_bitflip_witness :
    checksumOk ([0, 0, 4, 1, 0x13, 0x55, 0xAA] ++
      [crc_sum [0, 0, 4, 1, 0x13, 0x55, 0xAA]]) = true ∧
    checksumOk ([0, 0, 4, 1, 0x13, 0x55, 0xAA].set 4
      ([0, 0, 4, 1, 0x13, 0x55, 0xAA].getD 4 0 ^^^ 2 ^ 0) ++
      [crc_sum [0, 0, 4, 1, 0x13, 0x55, 0xAA]]) = false :=
  ⟨(checksum_verify_bitflip [0, 0, 4, 1, 0x13, 0x55, 0xAA] (by decide)).1,
   (checksum_verify_bitflip [0, 0, 4, 1, 0x13, 0x55, 0xAA] (by decide)).2
     4 (by decide) 0 (by decide)⟩

/-! ### Claim C2: no minimum-length check exists -/

theorem cellStatusOf_isSome (fs : List Nat) (h : 2 ≤ fs.length) :
    (cellStatusOf fs).isSome = true := by
  match fs with
  | [] => simp at h
  | [a] => simp at h
  | a :: b :: t =>
    simp only [cellStatusOf]
    by_cases ha : a > 0 <;> by_cases hb : b > 0 <;>
      simp [List.get?, ha, hb]

/-- The 7th and 8th characters of the heat hex string are the high and low
nibble of byte 68, for buffers long enough to fill the heat slice. -/
theorem heat_hex_chars (data : List Nat) (hlen : 72 ≤ data.length) :
    (hexDigits (pySlice data 68 72).reverse).get? 6 = some (data.getD 68 0 / 16) ∧
    (hexDigits (pySlice data 68 72).reverse).get? 7 = some (data.getD 68 0 % 16) := by
  have hsl : (pySlice data 68 72).length = 4 :=
    pySlice_length_of_le data 68 72 (by omega) (by omega)
  have hrl : (pySlice data 68 72).reverse.length = 4 := by
    rw [List.length_reverse, hsl]
  have hg := hexDigits_get? ((pySlice data 68 72).reverse) 3 (by omega)
  have hgd : (pySlice data 68 72).reverse.getD 3 0 = data.getD 68 0 := by
    have h3 : (3 : ℕ) < (pySlice data 68 72).length := by omega
    have hrev : (pySlice data 68 72).reverse[3]? = (pySlice data 68 72)[0]? := by
      rw [List.getElem?_reverse h3, hsl]
    have e : (pySlice data 68 72).getD 0 0 = data.getD 68 0 := by
      rw [pySlice_getD, if_pos (by omega)]
    simp only [List.getD, List.get?_eq_getElem?] at e ⊢
    rw [hrev, e]
  rw [hgd] at hg
  simp only [show (2 : ℕ) * 3 = 6 from rfl, show (6 : ℕ) + 1 = 7 from rfl] at hg
  exact hg

/-- C2 (amended): the decoder performs no minimum-length check and has no
MalformedResponse error kind. Any buffer of length ≥ 82 whose heat-flag hex
characters at indices 6 and 7 are decimal digits parses to completion — in
particular buffers shorter than the 104 bytes the fields occupy — while a
buffer shorter than 72 bytes makes the parser raise an `IndexError`
(modelled as `none`): in no case does decoding fail with a
malformed-response error. -/
theorem parse_no_min_length_check (st : BatteryInfo) (data : List Nat)
    (hlen : 82 ≤ data.length)
    (h6 : data.getD 68 0 / 16 < 10) (h7 : data.getD 68 0 % 16 < 10) :
    (parse_battery_info st data).isSome = true ∧
    ∀ short : List Nat, short.length < 72 →
      parse_battery_info st short = none := by
  constructor
  · have hev : (pySlice data 16 48).length % 2 = 0 := by
      rw [pySlice_length_of_le data 16 48 (by omega) (by omega)]
    obtain ⟨bp, hbp⟩ := Option.isSome_iff_exists.mp
      (cellLoop_isSome_of_even (pySlice data 16 48) 0
        (crcTag st data).batteryPack hev)
    have hh := heat_hex_chars data (by omega)
    have hfs : 2 ≤ ((pySlice data 80 84).reverse).length := by
      rw [List.length_reverse]
      unfold pySlice
      rw [List.length_take, List.length_drop]
      omega
    obtain ⟨cs, hcs⟩ := Option.isSome_iff_exists.mp (cellStatusOf_isSome _ hfs)
    have hd6 : pyIntDigit (data.getD 68 0 / 16) = some (data.getD 68 0 / 16) := by
      unfold pyIntDigit
      rw [if_pos h6]
    have hd7 : pyIntDigit (data.getD 68 0 % 16) = some (data.getD 68 0 % 16) := by
      unfold pyIntDigit
      rw [if_pos h7]
    rw [Option.isSome_iff_exists]
    simp only [parse_battery_info, parse_battery_info_body, bind,
      Option.bind_eq_some, Option.pure_def, Option.some.injEq]
    exact ⟨_, bp, hbp, _, hh.1, _, hd6, cs, hcs, _, hh.2, _, hd7, rfl⟩
  · intro short hshort
    simp only [parse_battery_info, parse_battery_info_body]
    have hnone : (hexDigits (pySlice short 68 72).reverse).get? 6 = none := by
      rw [List.get?_eq_none]
      rw [hexDigits_length, List.length_reverse]
      unfold pySlice
      rw [List.length_take, List.length_drop]
      omega
    rcases hc : cellLoop (pySlice short 16 48) 0 (crcTag st short).batteryPack
      with _ | bp
    · rfl
    · simp only [bind, Option.some_bind, hnone, Option.none_bind]

/-- C2 (counterexample): a 103-byte battery-info buffer — shorter than the
104-byte minimum — with a correct trailing checksum decodes to completion
with every error indicator clear: a silent success, not a MalformedResponse
failure. -/
theorem short_buffer_silent_success :
    c2buf.length = 103 ∧
    checksumOk c2buf = true ∧
    parse_battery_info initBatteryInfo c2buf = some c2res ∧
    c2res.error_code = 0 ∧
    c2res.error = none ∧
    c2res.error_message = none ∧
    c2res.SOC.isSome = true ∧
    c2res.battery_status.isSome = true ∧
    c2res.dischargesAHCount.isSome = true :=
  ⟨by decide, by decide, eq_some_getD initBatteryInfo (by decide), by decide,
   by decide, by decide, by decide, by decide, by decide⟩

/-- C2 (witness): the amended statement applied to the 103-byte buffer and
to a 20-byte buffer. -/
theorem parse_no_min_length_check_witness :
    82 ≤ c2buf.length ∧ c2buf.getD 68 0 / 16 < 10 ∧ c2buf.getD 68 0 % 16 < 10 ∧
    (parse_battery_info initBatteryInfo c2buf).isSome = true ∧
    parse_battery_info initBatteryInfo (List.replicate 20 0) = none :=
  ⟨by decide, by decide, by decide,
   (parse_no_min_length_check initBatteryInfo c2buf (by decide) (by decide)
     (by decide)).1,
   (parse_no_min_length_check initBatteryInfo c2buf (by decide) (by decide)
     (by decide)).2 (List.replicate 20 0) (by decide)⟩

end PqBms
